import Mathlib

/-!
# Shallow embedding of `OBDDataDecoder.cpp` (aws-iot-fleetwise-edge)

This file models the OBD-II response decoder found in
`src/datamanagement/datadecoding/src/OBDDataDecoder.cpp` and proves
properties of it.

Modelling conventions:
* C++ `uint8_t` payload bytes and PIDs are modelled as `Nat`; theorems that
  need byte-ness carry explicit `< 256` hypotheses.  Where the C++ performs
  64-bit arithmetic (`uint64_t rawData`), we reduce modulo `2 ^ 64`
  explicitly.
* `SignalValue` (a C++ `double`) is modelled as `ℚ`.  The only operations
  performed on it are `raw * factor + offset`; for the factors and offsets
  appearing in the claims (small dyadic rationals) and raw values below
  `2 ^ 53` these operations are exact in IEEE double precision, so the rational
  model is observationally faithful.
* The decoder dictionary (`std::unordered_map<PID, CANMessageFormat>`) is an
  association list looked up with `List.lookup`; only keyed lookup is
  performed by the source, never iteration, so the representation order is
  irrelevant.
* `EmissionInfo::mPIDsToValues` is a `std::map` written to exclusively with
  `emplace`, which inserts only when the key is absent; `mapEmplace` below
  models exactly that.
* C++ functions that mutate a caller-supplied output object by reference are
  modelled as functions from the old object to `Bool ×` the new object.
* Out-of-bounds `std::vector` indexing is undefined behaviour in C++; reads
  are modelled with `List.getD`/`getElem?`, and the safety theorems show the
  guarded reads are in bounds.
* Logging calls are not modelled: the source takes no control-flow decision
  from them and they touch no decoder state.
-/

namespace OBD

def POSITIVE_ECU_RESPONSE_BASE : Nat := 0x40

def BYTE_SIZE : Nat := 8

/-- `uint64_t` modulus for the raw-data accumulator. -/
def UINT64_MOD : Nat := 2 ^ 64

/-- One signal formula of the decoder dictionary (`CANSignalFormat`). -/
structure CANSignalFormat where
  mSignalID : Nat
  mFirstBitPosition : Nat
  mSizeInBits : Nat
  mFactor : ℚ
  mOffset : ℚ
deriving DecidableEq

/-- One decoder-dictionary entry for a PID: declared response length in bytes
and the attached signal formulas (iterated in declared order). -/
structure CANMessageFormat where
  mSizeInBytes : Nat
  mSignals : List CANSignalFormat
deriving DecidableEq

/-- The decoder dictionary, `PID → (size_in_bytes, signal formulas)`. -/
def OBDDecoderDictionary := List (Nat × CANMessageFormat)

/-- Modelled from the spec: the distinguished invalid PID sentinel returned by
`getPID` when the software does not support the advertised PID number
(declared in the missing header `OBDDataTypes.h`).  We place it outside the
8-bit PID range. -/
def INVALID_PID : Nat := 256

/-- Modelled from the spec: the range-selector PIDs
`0x00, 0x20, 0x40, 0x60, 0x80, 0xA0, 0xC0, 0xE0` (the array
`supportedPIDRange` lives in the missing header). -/
def supportedPIDRange : List Nat := [0x00, 0x20, 0x40, 0x60, 0x80, 0xA0, 0xC0, 0xE0]

/-- Modelled from the spec: `getPID(sid, index)` resolves an advertised PID
number against the known-PID table of the software (missing header); per the
spec it yields the advertised PID number itself when the software supports it
for this SID and `INVALID_PID` otherwise.  The supported-PID table is
abstracted as the boolean parameter `table`. -/
def getPID (table : Nat → Nat → Bool) (sid : Nat) (index : Nat) : Nat :=
  if index ≤ 0xFF && table sid index then index else INVALID_PID

/-- The bitmap bits harvested from one non-selector byte `b` at payload index
`i` after `basePIDCount` range selectors were seen
(`decodeSupportedPIDs`, inner `for` loop over bit positions `j`). -/
def supportedPIDsFromBits (table : Nat → Nat → Bool) (sid : Nat)
    (b i basePIDCount : Nat) : List Nat :=
  (List.range BYTE_SIZE).filterMap fun j =>
    if b &&& (1 <<< j) ≠ 0 then
      let decodedID := getPID table sid ((i - basePIDCount) * BYTE_SIZE - j)
      if decodedID ≠ INVALID_PID ∧ decodedID ∉ supportedPIDRange then
        some decodedID
      else none
    else none

/-- The byte walk of `decodeSupportedPIDs`: `l` is the remaining payload
suffix, `i` the payload index of its head, `basePIDCount` the number of range
selectors seen so far. -/
def decodeSupportedPIDsLoop (table : Nat → Nat → Bool) (sid : Nat) :
    List Nat → Nat → Nat → List Nat
  | [], _, _ => []
  | b :: rest, i, basePIDCount =>
    if i % 5 = 1 then
      decodeSupportedPIDsLoop table sid rest (i + 1) (basePIDCount + 1)
    else
      supportedPIDsFromBits table sid b i basePIDCount ++
        decodeSupportedPIDsLoop table sid rest (i + 1) basePIDCount

/-- `OBDDataDecoder::decodeSupportedPIDs`.  Returns the C++ boolean result
together with the final state of the caller's `supportedPIDs` vector. -/
def decodeSupportedPIDs (table : Nat → Nat → Bool) (sid : Nat)
    (inputData : List Nat) (supportedPIDs : List Nat) : Bool × List Nat :=
  if inputData.length < 6 ∨ POSITIVE_ECU_RESPONSE_BASE + sid ≠ inputData.getD 0 0 then
    (false, supportedPIDs)
  else
    let collected := supportedPIDs ++ decodeSupportedPIDsLoop table sid (inputData.drop 1) 1 0
    let sorted := collected.insertionSort (· ≤ ·)
    (!sorted.isEmpty, sorted)

/-- `EmissionInfo`: the SID echoed back plus the `signal_id → value` map. -/
structure EmissionInfo where
  mSID : Nat
  mPIDsToValues : List (Nat × ℚ)
deriving DecidableEq

/-- `std::map::emplace`: insert `(k, v)` only when `k` is not already
present; an existing entry for `k` is left unchanged. -/
def mapEmplace (m : List (Nat × ℚ)) (k : Nat) (v : ℚ) : List (Nat × ℚ) :=
  match m.lookup k with
  | some _ => m
  | none => m ++ [(k, v)]

/-- The multi-byte accumulation loop of `decodeEmissionPIDs`
(`while (numOfBytes != 0) { ...; rawData = (rawData << 8) | data[byteIdx++]; }`)
on a 64-bit accumulator.  `none` marks an out-of-bounds byte access, which is
undefined behaviour in the C++. -/
def readBytesAcc (inputData : List Nat) : Nat → Nat → Nat → Option Nat
  | _, 0, acc => some acc
  | byteIdx, n + 1, acc =>
    match inputData[byteIdx]? with
    | none => none
    | some b =>
      readBytesAcc inputData (byteIdx + 1) n (((acc <<< BYTE_SIZE) % UINT64_MOD) ||| b)

/-- Raw-value extraction for one formula, starting from the first data byte
of the PID record at index `byteCounter` (lines 151–175 of the source).
`none` marks an out-of-bounds byte access. -/
def extractRaw? (inputData : List Nat) (byteCounter : Nat)
    (formula : CANSignalFormat) : Option Nat :=
  let byteIdx := byteCounter + formula.mFirstBitPosition / BYTE_SIZE
  if formula.mSizeInBits < BYTE_SIZE then
    (inputData[byteIdx]?).map fun b =>
      (b >>> (formula.mFirstBitPosition % BYTE_SIZE)) &&&
        (0xFF >>> (BYTE_SIZE - formula.mSizeInBits))
  else
    readBytesAcc inputData byteIdx (formula.mSizeInBits / BYTE_SIZE) 0

/-- `OBDDataDecoder::isFormulaValid`. -/
def isFormulaValid (dict : OBDDecoderDictionary) (pid : Nat)
    (formula : CANSignalFormat) : Bool :=
  match dict.lookup pid with
  | none => false
  | some entry =>
    decide (formula.mFirstBitPosition < entry.mSizeInBytes * BYTE_SIZE) &&
    decide (formula.mSizeInBits + formula.mFirstBitPosition ≤ entry.mSizeInBytes * BYTE_SIZE) &&
    (decide (formula.mSizeInBits < 8) ||
      (decide (formula.mSizeInBits &&& 0x7 = 0) &&
       decide (formula.mFirstBitPosition &&& 0x7 = 0)))

/-- The `for (auto formula : formulas)` loop of `decodeEmissionPIDs`:
validate each formula, extract its raw value, scale and offset, and
`emplace` it into the signal map.  `byteCounter` is the index of the first
data byte of the current PID record. -/
def applyFormulas (dict : OBDDecoderDictionary) (pid : Nat) (inputData : List Nat)
    (byteCounter : Nat) (formulas : List CANSignalFormat)
    (vals : List (Nat × ℚ)) : List (Nat × ℚ) :=
  formulas.foldl (fun acc formula =>
    if isFormulaValid dict pid formula then
      let rawData := (extractRaw? inputData byteCounter formula).getD 0
      mapEmplace acc formula.mSignalID ((rawData : ℚ) * formula.mFactor + formula.mOffset)
    else acc) vals

/-- Observables of the PID walk of `decodeEmissionPIDs`:
the final signal map, whether the dictionary-miss `break` was taken, whether
any per-record length check `byteCounter + L ≤ size` failed, the
`(position, PID)` pairs read, and the final cursor value. -/
structure WalkResult where
  vals : List (Nat × ℚ)
  aborted : Bool
  shortSkip : Bool
  reads : List (Nat × Nat)
  final : Nat
deriving DecidableEq

/-- The `while (byteCounter < inputData.size())` walk of
`decodeEmissionPIDs` (lines 131–196), with `byteCounter` pointing at the
next PID byte. -/
def decodePIDsLoop (dict : OBDDecoderDictionary) (inputData : List Nat)
    (byteCounter : Nat) (vals : List (Nat × ℚ)) : WalkResult :=
  if h : byteCounter < inputData.length then
    let pid := inputData.getD byteCounter 0
    match dict.lookup pid with
    | some entry =>
      let lenOk := byteCounter + 1 + entry.mSizeInBytes ≤ inputData.length
      let vals' :=
        if lenOk then applyFormulas dict pid inputData (byteCounter + 1) entry.mSignals vals
        else vals
      let r := decodePIDsLoop dict inputData (byteCounter + 1 + entry.mSizeInBytes) vals'
      { r with
        reads := (byteCounter, pid) :: r.reads
        shortSkip := !decide lenOk || r.shortSkip }
    | none =>
      { vals := vals, aborted := true, shortSkip := false
        reads := [(byteCounter, pid)], final := byteCounter + 1 }
  else
    { vals := vals, aborted := false, shortSkip := false, reads := [], final := byteCounter }
termination_by inputData.length - byteCounter
decreasing_by omega

/-- `OBDDataDecoder::isPIDResponseValid`, recursion over the expected PID
list with `idx` the current response byte index. -/
def isPIDResponseValidAux (dict : OBDDecoderDictionary) :
    List Nat → List Nat → Nat → Bool
  | [], ecuResponse, idx => decide (idx = ecuResponse.length)
  | pid :: rest, ecuResponse, idx =>
    if idx ≥ ecuResponse.length ∨ ecuResponse.getD idx 0 ≠ pid then false
    else
      match dict.lookup pid with
      | some entry => isPIDResponseValidAux dict rest ecuResponse (idx + entry.mSizeInBytes + 1)
      | none => false

/-- `OBDDataDecoder::isPIDResponseValid`. -/
def isPIDResponseValid (dict : OBDDecoderDictionary)
    (pids ecuResponse : List Nat) : Bool :=
  isPIDResponseValidAux dict pids ecuResponse 1

/-- The `(position, PID)` pairs whose match the response validator checks,
starting at response index `idx`. -/
def validatorReads (dict : OBDDecoderDictionary) : List Nat → Nat → List (Nat × Nat)
  | [], _ => []
  | pid :: rest, idx =>
    (idx, pid) ::
      validatorReads dict rest (idx + ((dict.lookup pid).elim 0 (·.mSizeInBytes)) + 1)

/-- `OBDDataDecoder::decodeEmissionPIDs`.  `dict` is `none` when no decoder
dictionary was set (`mDecoderDictionaryConstPtr == nullptr`). -/
def decodeEmissionPIDs (dict : Option OBDDecoderDictionary) (sid : Nat)
    (pids : List Nat) (inputData : List Nat) (info : EmissionInfo) :
    Bool × EmissionInfo :=
  if inputData.length < 3 ∨ POSITIVE_ECU_RESPONSE_BASE + sid ≠ inputData.getD 0 0 then
    (false, info)
  else
    match dict with
    | none => (false, info)
    | some d =>
      if isPIDResponseValid d pids inputData = false then (false, info)
      else
        let r := decodePIDsLoop d inputData 1 info.mPIDsToValues
        (!r.vals.isEmpty, { mSID := sid, mPIDsToValues := r.vals })

/-- `DTCInfo`: the SID echoed back plus the decoded DTC strings
(modelled as `List Char`) in payload order. -/
structure DTCInfo where
  mSID : Nat
  mDTCCodes : List (List Char)
deriving DecidableEq

/-- Modelled from the spec: a fresh `DTCInfo` carries a distinguished
invalid service mode (declared in the missing header) and no codes. -/
def INVALID_SERVICE_MODE : Nat := 0xFF

def freshDTCInfo : DTCInfo := ⟨INVALID_SERVICE_MODE, []⟩

/-- Uppercase hex digit, the observable result of `std::hex` output followed
by the `::toupper` pass of `extractDTCString`. -/
def hexDigitUpper (n : Nat) : Char :=
  if n < 10 then Char.ofNat (48 + n) else Char.ofNat (55 + n)

/-- `OBDDataDecoder::extractDTCString`: the boolean result and the formatted
DTC. -/
def extractDTCString (firstByte secondByte : Nat) : Bool × List Char :=
  let dom : List Char :=
    if firstByte >>> 6 = 0 then ['P']
    else if firstByte >>> 6 = 1 then ['C']
    else if firstByte >>> 6 = 2 then ['B']
    else if firstByte >>> 6 = 3 then ['U']
    else []
  let s := dom ++
    [hexDigitUpper ((firstByte &&& 0x30) >>> 4), hexDigitUpper (firstByte &&& 0x0F),
     hexDigitUpper (secondByte >>> 4), hexDigitUpper (secondByte &&& 0x0F)]
  (s ≠ [], s)

/-- The DTC pair loop of `decodeDTCs`
(`for (byteIndex = 2; byteIndex < size - 1; byteIndex += 2)`). -/
def dtcLoop (inputData : List Nat) (byteIndex : Nat) : List (List Char) :=
  if byteIndex < inputData.length - 1 then
    let r := extractDTCString (inputData.getD byteIndex 0) (inputData.getD (byteIndex + 1) 0)
    (if r.1 then [r.2] else []) ++ dtcLoop inputData (byteIndex + 2)
  else []
termination_by inputData.length - byteIndex
decreasing_by omega

/-- `OBDDataDecoder::decodeDTCs`. -/
def decodeDTCs (sid : Nat) (inputData : List Nat) (info : DTCInfo) : Bool × DTCInfo :=
  if inputData.length < 2 ∨ POSITIVE_ECU_RESPONSE_BASE + sid ≠ inputData.getD 0 0 then
    (false, info)
  else
    let info1 : DTCInfo := { info with mSID := sid }
    let dtcCount := inputData.getD 1 0
    if dtcCount = 0 then (true, info1)
    else if dtcCount * 2 + 2 ≠ inputData.length then (false, info1)
    else
      let info2 : DTCInfo := { info1 with mDTCCodes := info1.mDTCCodes ++ dtcLoop inputData 2 }
      (!info2.mDTCCodes.isEmpty, info2)

/-- Modelled from the spec: the fixed VIN request, SID `0x09` / PID `0x02`
(the constant `vehicleIdentificationNumberRequest` lives in the missing
header). -/
def vinRequestSID : Nat := 0x09

def vinRequestPID : Nat := 0x02

/-- `OBDDataDecoder::decodeVIN`; the VIN is the byte suffix from index 3. -/
def decodeVIN (inputData : List Nat) (vin : List Nat) : Bool × List Nat :=
  if inputData.length < 3 ∨
      POSITIVE_ECU_RESPONSE_BASE + vinRequestSID ≠ inputData.getD 0 0 ∨
      vinRequestPID ≠ inputData.getD 1 0 then
    (false, vin)
  else
    let v := inputData.drop 3
    (!v.isEmpty, v)

/-- The byte indices dereferenced by `extractRaw?` (one byte on the sub-byte
path, `size_in_bits / 8` consecutive bytes on the multi-byte path). -/
def readIndices (byteCounter : Nat) (formula : CANSignalFormat) : List Nat :=
  let byteIdx := byteCounter + formula.mFirstBitPosition / BYTE_SIZE
  if formula.mSizeInBits < BYTE_SIZE then [byteIdx]
  else (List.range (formula.mSizeInBits / BYTE_SIZE)).map (byteIdx + ·)

/-- Spec formula for sub-byte extraction, written from the spec text: read one
byte, right-shift by `first_bit_position mod 8`, mask with
`0xFF >> (8 - size_in_bits)`. -/
def subByteRawSpec (dataByte firstBit sizeBits : Nat) : Nat :=
  (dataByte >>> (firstBit % 8)) &&& (0xFF >>> (8 - sizeBits))

/-- Spec formula for multi-byte extraction, written from the spec text:
big-endian concatenation of the bytes into a 64-bit accumulator. -/
def bigEndianConcatSpec (bytes : List Nat) : Nat :=
  bytes.foldl (fun a b => (a * 256 + b) % UINT64_MOD) 0

/-- Dictionary with a duplicated signal id: PID `0x05`, one data byte, two
formulas both carrying signal id 7, with factors 1 and 2. -/
def dictDupSig : OBDDecoderDictionary := [(5, ⟨1, [⟨7, 0, 8, 1, 0⟩, ⟨7, 0, 8, 2, 0⟩]⟩)]

/-- Dictionary knowing only PID `0x05` (1 data byte, signal id 1 covering the
whole byte with factor 1, offset 0). -/
def dictPid5 : OBDDecoderDictionary := [(5, ⟨1, [⟨1, 0, 8, 1, 0⟩]⟩)]

/-- Dictionary for the two-nibble scenario: PID `0x03`, 2 data bytes, signal
id 1 on bits 0–3 and signal id 2 on bits 4–7. -/
def dictNibbles : OBDDecoderDictionary := [(3, ⟨2, [⟨1, 0, 4, 1, 0⟩, ⟨2, 4, 4, 1, 0⟩]⟩)]

/-- Dictionary for the 16-bit scenario: PID `0x0C`, 2 data bytes, signal
id 10 of 16 bits with factor 0.25, offset 0. -/
def dictRPM : OBDDecoderDictionary := [(0x0C, ⟨2, [⟨10, 0, 16, 1/4, 0⟩]⟩)]

/-! ### Helper lemmas -/

theorem extractDTCString_fst (a b : Nat) : (extractDTCString a b).1 = true := by
  simp only [extractDTCString]
  split <;> simp

theorem dtcLoop_ne_nil (inputData : List Nat) (h : 2 < inputData.length - 1) :
    dtcLoop inputData 2 ≠ [] := by
  rw [dtcLoop]
  simp [h, extractDTCString_fst]

theorem lookup_append_some {m l : List (Nat × ℚ)} {k : Nat} {x : ℚ}
    (h : m.lookup k = some x) : (m ++ l).lookup k = some x := by
  rw [List.lookup_append, h]
  rfl

theorem mapEmplace_preserves {m : List (Nat × ℚ)} {k : Nat} {x : ℚ} (kk : Nat) (v : ℚ)
    (h : m.lookup k = some x) : (mapEmplace m kk v).lookup k = some x := by
  unfold mapEmplace
  cases hl : m.lookup kk with
  | some _ => exact h
  | none => exact lookup_append_some h

theorem applyFormulas_preserves (dict : OBDDecoderDictionary) (pid : Nat)
    (inputData : List Nat) (bc : Nat) :
    ∀ (formulas : List CANSignalFormat) (m : List (Nat × ℚ)) (k : Nat) (x : ℚ),
      m.lookup k = some x →
      (applyFormulas dict pid inputData bc formulas m).lookup k = some x := by
  intro formulas
  induction formulas with
  | nil => intro m k x h; exact h
  | cons f fs ih =>
    intro m k x h
    simp only [applyFormulas, List.foldl_cons]
    by_cases hv : isFormulaValid dict pid f = true
    · simp only [hv, if_true]
      exact ih _ k x (mapEmplace_preserves _ _ h)
    · simp only [hv, if_false]
      exact ih _ k x h

theorem decodePIDsLoop_vals_preserves_aux (dict : OBDDecoderDictionary) (inputData : List Nat) :
    ∀ (n bc : Nat) (m : List (Nat × ℚ)), inputData.length - bc ≤ n →
      ∀ (k : Nat) (x : ℚ), m.lookup k = some x →
      ((decodePIDsLoop dict inputData bc m).vals.lookup k = some x) := by
  intro n
  induction n with
  | zero =>
    intro bc m hn k x hx
    rw [decodePIDsLoop]
    have hbc : ¬ bc < inputData.length := by omega
    simp only [dif_neg hbc]
    exact hx
  | succ n ih =>
    intro bc m hn k x hx
    rw [decodePIDsLoop]
    by_cases h : bc < inputData.length
    · simp only [dif_pos h]
      cases hlook : List.lookup (inputData.getD bc 0) dict with
      | none =>
        simp only [hlook]
        exact hx
      | some entry =>
        simp only [hlook]
        apply ih
        · omega
        · split
          · exact applyFormulas_preserves dict (inputData.getD bc 0) inputData (bc + 1)
              entry.mSignals m k x hx
          · exact hx
    · simp only [dif_neg h]
      exact hx

theorem decodePIDsLoop_vals_preserves (dict : OBDDecoderDictionary) (inputData : List Nat)
    (bc : Nat) (m : List (Nat × ℚ)) (k : Nat) (x : ℚ) (hx : m.lookup k = some x) :
    ((decodePIDsLoop dict inputData bc m).vals.lookup k = some x) :=
  decodePIDsLoop_vals_preserves_aux dict inputData inputData.length bc m (by omega) k x hx

/-- C3 helper: no expected-PID list makes the response validator accept the
payload `41 05 7B 06 AA` under `dictPid5` (PID `0x06` is unknown). -/
theorem validator_rejects_dictPid5 :
    ∀ pids : List Nat, isPIDResponseValidAux dictPid5 pids [0x41, 5, 0x7B, 6, 0xAA] 1 = false := by
  intro pids
  cases pids with
  | nil => decide
  | cons p rest =>
    by_cases hp : p = 5
    · subst hp
      cases rest with
      | nil =>
        simp [isPIDResponseValidAux, dictPid5, List.lookup]
      | cons q r2 =>
        by_cases hq : q = 6
        · subst hq
          simp [isPIDResponseValidAux, dictPid5, List.lookup]
        · simp only [isPIDResponseValidAux, dictPid5, List.lookup]
          simp only [List.getD]
          have : ¬ ((6 : Nat) = q) := fun hh => hq hh.symm
          simp [this, isPIDResponseValidAux]
    · have : ¬ ((5 : Nat) = p) := fun hh => hp hh.symm
      simp [isPIDResponseValidAux, this]

/-! ### Claims -/

/-- C1, counterexample: on a dictionary whose PID `0x05` carries two validated
formulas with the same signal id 7 (factors 1 and 2) and payload `41 05 02`,
the decode succeeds and reports signal 7 as `2` — the value of the FIRST
formula — not `4`, the value the last formula would produce, because
`std::map::emplace` does not overwrite an existing key. -/
theorem claim_C1_counterexample :
    (decodeEmissionPIDs (some dictDupSig) 1 [5] [0x41, 5, 2] ⟨0, []⟩).1 = true ∧
    (decodeEmissionPIDs (some dictDupSig) 1 [5] [0x41, 5, 2] ⟨0, []⟩).2.mPIDsToValues.lookup 7
      = some 2 ∧
    (some (2 : ℚ) ≠ some ((2 : ℚ) * 2 + 0)) := by
  refine ⟨?_, ?_, by norm_num⟩ <;>
    simp [decodeEmissionPIDs, isPIDResponseValid, isPIDResponseValidAux, dictDupSig,
      decodePIDsLoop, applyFormulas, isFormulaValid, extractRaw?, readBytesAcc, mapEmplace,
      List.lookup, UINT64_MOD, BYTE_SIZE, POSITIVE_ECU_RESPONSE_BASE] <;> decide

/-- C1 (amended): within one emission decode, once a `signal_id` is present in
the output mapping it is never overwritten — neither by a later formula of the
same PID (`applyFormulas`) nor by any later step of the payload walk
(`decodePIDsLoop`); the value reported for a duplicated `signal_id` is the one
computed from the FIRST formula in dictionary iteration order that passed
validation.  Concretely, the duplicated-id dictionary `dictDupSig` on payload
`41 05 02` reports signal 7 as `2 * 1 + 0`, from its first formula. -/
theorem claim_C1 :
    (∀ (dict : OBDDecoderDictionary) (pid : Nat) (inputData : List Nat) (bc : Nat)
        (formulas : List CANSignalFormat) (m : List (Nat × ℚ)) (k : Nat) (x : ℚ),
      m.lookup k = some x →
      (applyFormulas dict pid inputData bc formulas m).lookup k = some x) ∧
    (∀ (dict : OBDDecoderDictionary) (inputData : List Nat) (bc : Nat)
        (m : List (Nat × ℚ)) (k : Nat) (x : ℚ),
      m.lookup k = some x →
      ((decodePIDsLoop dict inputData bc m).vals.lookup k = some x)) ∧
    (decodeEmissionPIDs (some dictDupSig) 1 [5] [0x41, 5, 2] ⟨0, []⟩).2.mPIDsToValues.lookup 7
      = some ((2 : ℚ) * 1 + 0) := by
  refine ⟨?_, ?_, ?_⟩
  · intro dict pid inputData bc formulas m k x h
    exact applyFormulas_preserves dict pid inputData bc formulas m k x h
  · intro dict inputData bc m k x h
    exact decodePIDsLoop_vals_preserves dict inputData bc m k x h
  · norm_num
    simp [decodeEmissionPIDs, isPIDResponseValid, isPIDResponseValidAux, dictDupSig,
      decodePIDsLoop, applyFormulas, isFormulaValid, extractRaw?, readBytesAcc, mapEmplace,
      List.lookup, UINT64_MOD, BYTE_SIZE, POSITIVE_ECU_RESPONSE_BASE] <;> decide

/-- C1, witness for the amended theorem: a map already binding signal 7 to 2
is preserved by a further `applyFormulas` and by a full walk. -/
theorem claim_C1_witness :
    (applyFormulas dictDupSig 5 [0x41, 5, 2] 2 [⟨7, 0, 8, 2, 0⟩] [(7, 2)]).lookup 7 = some 2 ∧
    ((decodePIDsLoop dictDupSig [0x41, 5, 2] 1 [(7, 2)]).vals.lookup 7 = some 2) :=
  ⟨claim_C1.1 dictDupSig 5 [0x41, 5, 2] 2 [⟨7, 0, 8, 2, 0⟩] [(7, 2)] 7 2 (by decide),
   claim_C1.2.1 dictDupSig [0x41, 5, 2] 1 [(7, 2)] 7 2 (by decide)⟩

/-- C2, counterexample: payload `43 00 AA` has first byte `0x43` and violates
the length law (`3 ≠ 2 + 2*0`), yet `decodeDTCs` returns success, because a
zero DTC count short-circuits the length check. -/
theorem claim_C2_counterexample :
    (decodeDTCs 3 [0x43, 0, 0xAA] freshDTCInfo).1 = true ∧
    [0x43, 0, 0xAA].length ≠ 2 + 2 * List.getD [0x43, 0, 0xAA] 1 0 := by
  constructor
  · simp [decodeDTCs, freshDTCInfo, POSITIVE_ECU_RESPONSE_BASE]
  · decide

/-- C2 (amended): for every payload whose first byte is `0x43`, `decodeDTCs`
(with a fresh output) succeeds if and only if the payload is at least 2 bytes
long and EITHER the DTC count byte `data[1]` is zero — in which case no length
check is performed and trailing bytes are accepted — or the payload length
equals `2 + 2 * data[1]`. -/
theorem claim_C2 (inputData : List Nat) (h : inputData.getD 0 0 = 0x43) :
    ((decodeDTCs 3 inputData freshDTCInfo).1 = true ↔
      2 ≤ inputData.length ∧
        (inputData.getD 1 0 = 0 ∨ inputData.length = 2 + 2 * inputData.getD 1 0)) := by
  have h0 : inputData[0]?.getD 0 = 67 := by simpa [List.getD] using h
  unfold decodeDTCs
  by_cases hl : inputData.length < 2
  · norm_num [hl, POSITIVE_ECU_RESPONSE_BASE, h]
  · norm_num [hl, POSITIVE_ECU_RESPONSE_BASE, h, h0]
    by_cases hc : inputData[1]?.getD 0 = 0
    · simp only [hc, if_true]
      simp
      omega
    · simp only [hc, if_false]
      by_cases he : inputData[1]?.getD 0 * 2 + 2 = inputData.length
      · have hne := dtcLoop_ne_nil inputData (by omega)
        simp only [he, if_true]
        simp [freshDTCInfo, hne]
        omega
      · simp only [he, if_false]
        simp
        omega

/-- C2, witness: payload `43 01 00 00` satisfies the amended success
condition and indeed decodes successfully. -/
theorem claim_C2_witness : (decodeDTCs 3 [0x43, 1, 0, 0] freshDTCInfo).1 = true :=
  (claim_C2 [0x43, 1, 0, 0] (by decide)).mpr (by norm_num)

/-- C3, counterexample: with `dictPid5` (PID `0x05` known, `0x06` unknown)
and payload `41 05 7B 06 AA`, `decodeEmissionPIDs` does NOT yield the signals
of PID `0x05`: the response validator rejects the payload, the call fails,
and signal 1 (PID `0x05`'s signal) is absent from the output. -/
theorem claim_C3_counterexample :
    (decodeEmissionPIDs (some dictPid5) 1 [5, 6] [0x41, 5, 0x7B, 6, 0xAA] ⟨0, []⟩).1 = false ∧
    (decodeEmissionPIDs (some dictPid5) 1 [5, 6]
        [0x41, 5, 0x7B, 6, 0xAA] ⟨0, []⟩).2.mPIDsToValues.lookup 1 = none := by
  constructor <;>
    simp [decodeEmissionPIDs, isPIDResponseValid, isPIDResponseValidAux, dictPid5,
      List.lookup, POSITIVE_ECU_RESPONSE_BASE]

/-- C3 (amended): for the dictionary containing PID `0x05` (1 data byte, one
valid signal formula) but not PID `0x06`, and payload `41 05 7B 06 AA`:
`decodeEmissionPIDs` fails for EVERY expected-PID list — the response
validator rejects the payload before the walk, so the call returns failure
and the output object is untouched; no signal of PID `0x05` is reported.
Only the inner payload walk, run directly, decodes PID `0x05`'s signal
(`1 ↦ 0x7B`), hits the dictionary miss on `0x06`, aborts, and retains the
already-decoded signal while PID `0x06` contributes nothing. -/
theorem claim_C3 :
    (∀ pids : List Nat,
      decodeEmissionPIDs (some dictPid5) 1 pids [0x41, 5, 0x7B, 6, 0xAA] ⟨0, []⟩ =
        (false, ⟨0, []⟩)) ∧
    (decodePIDsLoop dictPid5 [0x41, 5, 0x7B, 6, 0xAA] 1 []).vals.lookup 1 = some 0x7B ∧
    (decodePIDsLoop dictPid5 [0x41, 5, 0x7B, 6, 0xAA] 1 []).aborted = true := by
  refine ⟨?_, ?_, ?_⟩
  · intro pids
    have hv := validator_rejects_dictPid5 pids
    simp [decodeEmissionPIDs, isPIDResponseValid, hv, POSITIVE_ECU_RESPONSE_BASE]
  · simp [decodePIDsLoop, dictPid5, applyFormulas, isFormulaValid, extractRaw?, readBytesAcc,
      mapEmplace, List.lookup, UINT64_MOD, BYTE_SIZE]
  · simp [decodePIDsLoop, dictPid5, applyFormulas, isFormulaValid, extractRaw?, readBytesAcc,
      mapEmplace, List.lookup, UINT64_MOD, BYTE_SIZE]

theorem shiftLeft_mod_or_eq (acc b : Nat) (hb : b < 256) :
    ((acc <<< BYTE_SIZE) % UINT64_MOD) ||| b = (acc * 256 + b) % UINT64_MOD := by
  have hs : acc <<< BYTE_SIZE = acc * 256 := by
    rw [Nat.shiftLeft_eq]
    norm_num [BYTE_SIZE]
  have hdvd : (256 : Nat) ∣ (acc * 256) % UINT64_MOD :=
    (Nat.dvd_mod_iff (by norm_num [UINT64_MOD])).mpr ⟨acc, by ring⟩
  obtain ⟨a, ha⟩ := hdvd
  have hor : (256 : Nat) * a ||| b = 256 * a + b := by
    have hmo := Nat.mul_add_lt_is_or (i := 8) (show b < 2 ^ 8 by norm_num [hb]) a
    norm_num at hmo
    exact hmo.symm
  have hmod : (acc * 256) % UINT64_MOD < UINT64_MOD :=
    Nat.mod_lt _ (by norm_num [UINT64_MOD])
  have hlt : 256 * a + b < UINT64_MOD := by
    rw [ha] at hmod
    norm_num [UINT64_MOD] at *
    omega
  calc ((acc <<< BYTE_SIZE) % UINT64_MOD) ||| b
      = 256 * a ||| b := by rw [hs, ha]
    _ = 256 * a + b := hor
    _ = (256 * a + b) % UINT64_MOD := (Nat.mod_eq_of_lt hlt).symm
    _ = ((acc * 256) % UINT64_MOD + b) % UINT64_MOD := by rw [ha]
    _ = (acc * 256 + b) % UINT64_MOD := by rw [Nat.mod_add_mod]

theorem readBytesAcc_spec (inputData : List Nat) (hbytes : ∀ b ∈ inputData, b < 256) :
    ∀ (n byteIdx acc : Nat), byteIdx + n ≤ inputData.length →
      readBytesAcc inputData byteIdx n acc =
        some (((inputData.drop byteIdx).take n).foldl
          (fun a b => (a * 256 + b) % UINT64_MOD) acc) := by
  intro n
  induction n with
  | zero =>
    intro byteIdx acc hle
    simp [readBytesAcc]
  | succ n ih =>
    intro byteIdx acc hle
    have hlt : byteIdx < inputData.length := by omega
    have hget : inputData[byteIdx]? = some inputData[byteIdx] :=
      List.getElem?_eq_getElem hlt
    rw [readBytesAcc, hget]
    dsimp only
    rw [List.drop_eq_getElem_cons hlt, List.take_succ_cons, List.foldl_cons]
    rw [shiftLeft_mod_or_eq acc _ (hbytes _ (List.getElem_mem hlt))]
    exact ih (byteIdx + 1) _ (by omega)

/-- C5: for a formula with `size_in_bits < 8`, the raw value extracted is the
data byte at `data_start + first_bit_position/8`, right-shifted by
`first_bit_position mod 8` and masked with `0xFF >> (8 - size_in_bits)`
(the spec-side formula `subByteRawSpec`); concretely, `dictNibbles`
(pid `0x03`, two 4-bit signals at first bits 0 and 4) on payload
`41 03 AB 00` decodes successfully with signal 1 = `0x0B` and
signal 2 = `0x0A`. -/
theorem claim_C5 :
    (∀ (inputData : List Nat) (bc : Nat) (f : CANSignalFormat) (b : Nat),
      f.mSizeInBits < 8 →
      inputData[bc + f.mFirstBitPosition / 8]? = some b →
      extractRaw? inputData bc f = some (subByteRawSpec b f.mFirstBitPosition f.mSizeInBits)) ∧
    (decodeEmissionPIDs (some dictNibbles) 1 [3] [0x41, 3, 0xAB, 0] ⟨0, []⟩).1 = true ∧
    (decodeEmissionPIDs (some dictNibbles) 1 [3]
        [0x41, 3, 0xAB, 0] ⟨0, []⟩).2.mPIDsToValues.lookup 1 = some 0x0B ∧
    (decodeEmissionPIDs (some dictNibbles) 1 [3]
        [0x41, 3, 0xAB, 0] ⟨0, []⟩).2.mPIDsToValues.lookup 2 = some 0x0A := by
  refine ⟨?_, ?_, ?_, ?_⟩
  · intro inputData bc f b hsz hb
    simp [extractRaw?, BYTE_SIZE, hsz, hb, subByteRawSpec]
  all_goals
    simp [decodeEmissionPIDs, isPIDResponseValid, isPIDResponseValidAux, dictNibbles,
      decodePIDsLoop, applyFormulas, isFormulaValid, extractRaw?, readBytesAcc, mapEmplace,
      List.lookup, UINT64_MOD, BYTE_SIZE, POSITIVE_ECU_RESPONSE_BASE] <;> decide

/-- C5, witness: the general sub-byte equation applied to the high nibble of
byte `0xAB`. -/
theorem claim_C5_witness :
    extractRaw? [0xAB] 0 ⟨2, 4, 4, 1, 0⟩ = some (subByteRawSpec 0xAB 4 4) :=
  claim_C5.1 [0xAB] 0 ⟨2, 4, 4, 1, 0⟩ 0xAB (by decide) (by decide)

/-- C6: for a formula with `size_in_bits ≥ 8`, the raw value extracted is the
big-endian concatenation of the `size_in_bits/8` consecutive data bytes
starting at `data_start + first_bit_position/8`, folded into a 64-bit
accumulator (the spec-side formula `bigEndianConcatSpec`); concretely,
`dictRPM` (pid `0x0C`, one 16-bit signal, factor 0.25) on payload
`41 0C 1A F8` extracts raw `0x1AF8` and decodes signal 10 to `1726`. -/
theorem claim_C6 :
    (∀ (inputData : List Nat) (bc : Nat) (f : CANSignalFormat),
      8 ≤ f.mSizeInBits →
      (∀ b ∈ inputData, b < 256) →
      bc + f.mFirstBitPosition / 8 + f.mSizeInBits / 8 ≤ inputData.length →
      extractRaw? inputData bc f =
        some (bigEndianConcatSpec
          ((inputData.drop (bc + f.mFirstBitPosition / 8)).take (f.mSizeInBits / 8)))) ∧
    extractRaw? [0x41, 0x0C, 0x1A, 0xF8] 2 ⟨10, 0, 16, 1/4, 0⟩ = some 0x1AF8 ∧
    (decodeEmissionPIDs (some dictRPM) 1 [0x0C] [0x41, 0x0C, 0x1A, 0xF8] ⟨0, []⟩).1 = true ∧
    (decodeEmissionPIDs (some dictRPM) 1 [0x0C]
        [0x41, 0x0C, 0x1A, 0xF8] ⟨0, []⟩).2.mPIDsToValues.lookup 10 = some 1726 := by
  refine ⟨?_, ?_, ?_, ?_⟩
  · intro inputData bc f h8 hb hlen
    have hn8 : ¬ f.mSizeInBits < 8 := by omega
    simp only [extractRaw?, bigEndianConcatSpec, BYTE_SIZE]
    rw [if_neg hn8]
    exact readBytesAcc_spec inputData hb _ _ 0 (by omega)
  · decide
  · simp [decodeEmissionPIDs, isPIDResponseValid, isPIDResponseValidAux, dictRPM,
      decodePIDsLoop, applyFormulas, isFormulaValid, extractRaw?, readBytesAcc, mapEmplace,
      List.lookup, UINT64_MOD, BYTE_SIZE, POSITIVE_ECU_RESPONSE_BASE] <;> decide
  · simp [decodeEmissionPIDs, isPIDResponseValid, isPIDResponseValidAux, dictRPM,
      decodePIDsLoop, applyFormulas, isFormulaValid, extractRaw?, readBytesAcc, mapEmplace,
      List.lookup, UINT64_MOD, BYTE_SIZE, POSITIVE_ECU_RESPONSE_BASE] <;> norm_num

/-- C6, witness: the general big-endian equation applied to the two RPM data
bytes. -/
theorem claim_C6_witness :
    extractRaw? [0x1A, 0xF8] 0 ⟨10, 0, 16, 1/4, 0⟩ =
      some (bigEndianConcatSpec ([0x1A, 0xF8].take 2)) :=
  claim_C6.1 [0x1A, 0xF8] 0 ⟨10, 0, 16, 1/4, 0⟩ (by decide) (by decide) (by decide)

/-- Early-failure helper: envelope failure leaves the supported-PID list
unchanged. -/
theorem decodeSupportedPIDs_envelope_fail (table : Nat → Nat → Bool) (sid : Nat)
    (inputData out : List Nat)
    (h : inputData.length < 6 ∨ POSITIVE_ECU_RESPONSE_BASE + sid ≠ inputData.getD 0 0) :
    decodeSupportedPIDs table sid inputData out = (false, out) := by
  simp only [decodeSupportedPIDs, if_pos h]

/-- Early-failure helper: envelope failure leaves the `EmissionInfo`
unchanged. -/
theorem decodeEmissionPIDs_envelope_fail (dict : Option OBDDecoderDictionary) (sid : Nat)
    (pids inputData : List Nat) (info : EmissionInfo)
    (h : inputData.length < 3 ∨ POSITIVE_ECU_RESPONSE_BASE + sid ≠ inputData.getD 0 0) :
    decodeEmissionPIDs dict sid pids inputData info = (false, info) := by
  simp only [decodeEmissionPIDs, if_pos h]

/-- Early-failure helper: a missing dictionary leaves the `EmissionInfo`
unchanged. -/
theorem decodeEmissionPIDs_no_dict (sid : Nat) (pids inputData : List Nat)
    (info : EmissionInfo) : decodeEmissionPIDs none sid pids inputData info = (false, info) := by
  simp only [decodeEmissionPIDs]
  split
  · rfl
  · rfl

/-- Early-failure helper: a rejected PID response leaves the `EmissionInfo`
unchanged. -/
theorem decodeEmissionPIDs_invalid_response (d : OBDDecoderDictionary) (sid : Nat)
    (pids inputData : List Nat) (info : EmissionInfo)
    (h : isPIDResponseValid d pids inputData = false) :
    decodeEmissionPIDs (some d) sid pids inputData info = (false, info) := by
  simp only [decodeEmissionPIDs]
  split
  · rfl
  · simp [h]

/-- Early-failure helper: envelope failure leaves the `DTCInfo` unchanged. -/
theorem decodeDTCs_envelope_fail (sid : Nat) (inputData : List Nat) (info : DTCInfo)
    (h : inputData.length < 2 ∨ POSITIVE_ECU_RESPONSE_BASE + sid ≠ inputData.getD 0 0) :
    decodeDTCs sid inputData info = (false, info) := by
  simp only [decodeDTCs, if_pos h]

/-- Early-failure helper: envelope failure leaves the VIN string unchanged. -/
theorem decodeVIN_envelope_fail (inputData vin : List Nat)
    (h : inputData.length < 3 ∨ POSITIVE_ECU_RESPONSE_BASE + vinRequestSID ≠ inputData.getD 0 0 ∨
      vinRequestPID ≠ inputData.getD 1 0) :
    decodeVIN inputData vin = (false, vin) := by
  simp only [decodeVIN, if_pos h]

/-- C7, counterexample: on the corrupt DTC frame `43 02 01 23` (count 2 but
only one DTC pair), `decodeDTCs` returns failure yet has already written the
echoed SID into the caller's `DTCInfo`, so the output is NOT left as it was
before the call. -/
theorem claim_C7_counterexample :
    (decodeDTCs 3 [0x43, 0x02, 0x01, 0x23] freshDTCInfo).1 = false ∧
    (decodeDTCs 3 [0x43, 0x02, 0x01, 0x23] freshDTCInfo).2.mSID = 3 ∧
    (decodeDTCs 3 [0x43, 0x02, 0x01, 0x23] freshDTCInfo).2 ≠ freshDTCInfo := by
  refine ⟨?_, ?_, ?_⟩ <;>
    simp [decodeDTCs, freshDTCInfo, INVALID_SERVICE_MODE, POSITIVE_ECU_RESPONSE_BASE,
      DTCInfo.mk.injEq]

/-- C7 (amended): a decode failure leaves the caller-supplied output object
untouched exactly when it is detected before the decoder writes its first
field: the envelope failures of all four decoders, and for the emission
decoder also the missing-dictionary and response-validation failures.
Failures detected later modify the output (see the counterexample: the DTC
corrupt-frame failure leaves the echoed SID set; likewise the emission
empty-result failure sets the SID and the VIN empty-suffix failure overwrites
the VIN). -/
theorem claim_C7 :
    (∀ (table : Nat → Nat → Bool) (sid : Nat) (inputData out : List Nat),
      inputData.length < 6 ∨ POSITIVE_ECU_RESPONSE_BASE + sid ≠ inputData.getD 0 0 →
      decodeSupportedPIDs table sid inputData out = (false, out)) ∧
    (∀ (dict : Option OBDDecoderDictionary) (sid : Nat) (pids inputData : List Nat)
        (info : EmissionInfo),
      inputData.length < 3 ∨ POSITIVE_ECU_RESPONSE_BASE + sid ≠ inputData.getD 0 0 →
      decodeEmissionPIDs dict sid pids inputData info = (false, info)) ∧
    (∀ (sid : Nat) (pids inputData : List Nat) (info : EmissionInfo),
      decodeEmissionPIDs none sid pids inputData info = (false, info)) ∧
    (∀ (d : OBDDecoderDictionary) (sid : Nat) (pids inputData : List Nat)
        (info : EmissionInfo),
      isPIDResponseValid d pids inputData = false →
      decodeEmissionPIDs (some d) sid pids inputData info = (false, info)) ∧
    (∀ (sid : Nat) (inputData : List Nat) (info : DTCInfo),
      inputData.length < 2 ∨ POSITIVE_ECU_RESPONSE_BASE + sid ≠ inputData.getD 0 0 →
      decodeDTCs sid inputData info = (false, info)) ∧
    (∀ (inputData vin : List Nat),
      inputData.length < 3 ∨ POSITIVE_ECU_RESPONSE_BASE + vinRequestSID ≠ inputData.getD 0 0 ∨
        vinRequestPID ≠ inputData.getD 1 0 →
      decodeVIN inputData vin = (false, vin)) :=
  ⟨decodeSupportedPIDs_envelope_fail, decodeEmissionPIDs_envelope_fail,
   decodeEmissionPIDs_no_dict, decodeEmissionPIDs_invalid_response,
   decodeDTCs_envelope_fail, decodeVIN_envelope_fail⟩

/-- C7, witness: each untouched-on-early-failure case at a concrete input. -/
theorem claim_C7_witness :
    decodeSupportedPIDs (fun _ _ => true) 1 [0, 1] [9] = (false, [9]) ∧
    decodeEmissionPIDs (some dictPid5) 1 [5] [0x42, 5, 2] ⟨7, [(3, 5)]⟩ =
      (false, ⟨7, [(3, 5)]⟩) ∧
    decodeEmissionPIDs none 1 [5] [0x41, 5, 2] ⟨7, [(3, 5)]⟩ = (false, ⟨7, [(3, 5)]⟩) ∧
    decodeEmissionPIDs (some dictPid5) 1 [] [0x41, 5, 2] ⟨7, [(3, 5)]⟩ =
      (false, ⟨7, [(3, 5)]⟩) ∧
    decodeDTCs 3 [0x44, 0] ⟨9, [['P']]⟩ = (false, ⟨9, [['P']]⟩) ∧
    decodeVIN [0x49, 3, 1, 65] [66] = (false, [66]) :=
  ⟨claim_C7.1 (fun _ _ => true) 1 [0, 1] [9] (by norm_num),
   claim_C7.2.1 (some dictPid5) 1 [5] [0x42, 5, 2] ⟨7, [(3, 5)]⟩ (by norm_num [POSITIVE_ECU_RESPONSE_BASE]),
   claim_C7.2.2.1 1 [5] [0x41, 5, 2] ⟨7, [(3, 5)]⟩,
   claim_C7.2.2.2.1 dictPid5 1 [] [0x41, 5, 2] ⟨7, [(3, 5)]⟩ (by decide),
   claim_C7.2.2.2.2.1 3 [0x44, 0] ⟨9, [['P']]⟩ (by norm_num [POSITIVE_ECU_RESPONSE_BASE]),
   claim_C7.2.2.2.2.2 [0x49, 3, 1, 65] [66] (by norm_num [vinRequestPID])⟩

/-- C8: every service decode rejects a payload whose first byte is not
`0x40 + sid` (for the VIN decoder, `sid = 9`) or whose length is below the
service minimum — 6 for supported PIDs, 3 for emission PIDs, 2 for DTCs, 3
for VIN. -/
theorem claim_C8 :
    (∀ (table : Nat → Nat → Bool) (sid : Nat) (inputData out : List Nat),
      inputData.getD 0 0 ≠ 0x40 + sid ∨ inputData.length < 6 →
      (decodeSupportedPIDs table sid inputData out).1 = false) ∧
    (∀ (dict : Option OBDDecoderDictionary) (sid : Nat) (pids inputData : List Nat)
        (info : EmissionInfo),
      inputData.getD 0 0 ≠ 0x40 + sid ∨ inputData.length < 3 →
      (decodeEmissionPIDs dict sid pids inputData info).1 = false) ∧
    (∀ (sid : Nat) (inputData : List Nat) (info : DTCInfo),
      inputData.getD 0 0 ≠ 0x40 + sid ∨ inputData.length < 2 →
      (decodeDTCs sid inputData info).1 = false) ∧
    (∀ (inputData vin : List Nat),
      inputData.getD 0 0 ≠ 0x40 + vinRequestSID ∨ inputData.length < 3 →
      (decodeVIN inputData vin).1 = false) := by
  have henv : ∀ (inputData : List Nat) (sid base : Nat),
      inputData.getD 0 0 ≠ base + sid → base + sid ≠ inputData.getD 0 0 :=
    fun _ _ _ h => fun hh => h hh.symm
  refine ⟨?_, ?_, ?_, ?_⟩
  · intro table sid inputData out h
    rcases h with h | h
    · rw [decodeSupportedPIDs_envelope_fail table sid inputData out (Or.inr (henv _ _ _ h))]
    · rw [decodeSupportedPIDs_envelope_fail table sid inputData out (Or.inl h)]
  · intro dict sid pids inputData info h
    rcases h with h | h
    · rw [decodeEmissionPIDs_envelope_fail dict sid pids inputData info (Or.inr (henv _ _ _ h))]
    · rw [decodeEmissionPIDs_envelope_fail dict sid pids inputData info (Or.inl h)]
  · intro sid inputData info h
    rcases h with h | h
    · rw [decodeDTCs_envelope_fail sid inputData info (Or.inr (henv _ _ _ h))]
    · rw [decodeDTCs_envelope_fail sid inputData info (Or.inl h)]
  · intro inputData vin h
    rcases h with h | h
    · rw [decodeVIN_envelope_fail inputData vin (Or.inr (Or.inl (henv _ _ _ h)))]
    · rw [decodeVIN_envelope_fail inputData vin (Or.inl h)]

theorem and_seven_eq_mod (x : Nat) : x &&& 7 = x % 8 := by
  have hx := Nat.and_pow_two_sub_one_eq_mod x 3
  norm_num at hx
  exact hx

theorem readBytesAcc_isSome (inputData : List Nat) :
    ∀ (n byteIdx acc : Nat), byteIdx + n ≤ inputData.length →
      (readBytesAcc inputData byteIdx n acc).isSome := by
  intro n
  induction n with
  | zero =>
    intro byteIdx acc hle
    simp [readBytesAcc]
  | succ n ih =>
    intro byteIdx acc hle
    have hlt : byteIdx < inputData.length := by omega
    rw [readBytesAcc, List.getElem?_eq_getElem hlt]
    exact ih (byteIdx + 1) _ (by omega)

/-- Tie between `readIndices` and `extractRaw?`: when every index that
extraction dereferences is inside the payload, no read misses. -/
theorem extractRaw?_isSome_of_readIndices (inputData : List Nat) (bc : Nat)
    (f : CANSignalFormat)
    (h : ∀ i ∈ readIndices bc f, i < inputData.length) :
    (extractRaw? inputData bc f).isSome := by
  by_cases hs : f.mSizeInBits < 8
  · have hidx : bc + f.mFirstBitPosition / 8 < inputData.length := by
      apply h
      simp [readIndices, BYTE_SIZE, hs]
    simp [extractRaw?, BYTE_SIZE, hs, List.getElem?_eq_getElem hidx]
  · simp only [extractRaw?, BYTE_SIZE]
    rw [if_neg (by omega)]
    apply readBytesAcc_isSome
    rcases Nat.eq_zero_or_pos (f.mSizeInBits / 8) with h0 | hpos
    · omega
    · have hlast : bc + f.mFirstBitPosition / 8 + (f.mSizeInBits / 8 - 1) <
          inputData.length := by
        apply h
        simp only [readIndices, BYTE_SIZE]
        rw [if_neg (by omega)]
        simp only [List.mem_map, List.mem_range]
        exact ⟨f.mSizeInBits / 8 - 1, by omega, rfl⟩
      omega

/-- C4: a formula that passes `isFormulaValid` for its PID, under the walk's
per-record length check `cursor + size_in_bytes ≤ payload length`, only ever
dereferences byte indices inside the PID's declared byte window
`[cursor, cursor + size_in_bytes)` — hence strictly inside the payload — and
raw-value extraction never misses. -/
theorem claim_C4 (dict : OBDDecoderDictionary) (pid : Nat) (entry : CANMessageFormat)
    (f : CANSignalFormat) (inputData : List Nat) (byteCounter : Nat)
    (hlook : dict.lookup pid = some entry)
    (hvalid : isFormulaValid dict pid f = true)
    (hlen : byteCounter + entry.mSizeInBytes ≤ inputData.length) :
    (∀ i ∈ readIndices byteCounter f,
        byteCounter ≤ i ∧ i < byteCounter + entry.mSizeInBytes ∧ i < inputData.length) ∧
    (extractRaw? inputData byteCounter f).isSome := by
  rw [isFormulaValid, hlook] at hvalid
  simp only [Bool.and_eq_true, Bool.or_eq_true, decide_eq_true_eq, BYTE_SIZE] at hvalid
  obtain ⟨⟨h1, h2⟩, h3⟩ := hvalid
  have hwin : ∀ i ∈ readIndices byteCounter f,
      byteCounter ≤ i ∧ i < byteCounter + entry.mSizeInBytes ∧ i < inputData.length := by
    intro i hi
    by_cases hs : f.mSizeInBits < 8
    · simp only [readIndices, BYTE_SIZE, if_pos hs, List.mem_singleton] at hi
      subst hi
      omega
    · rcases h3 with hlt8 | ⟨hs8, hf8⟩
      · omega
      · rw [and_seven_eq_mod] at hs8 hf8
        simp only [readIndices, BYTE_SIZE] at hi
        rw [if_neg hs] at hi
        simp only [List.mem_map, List.mem_range] at hi
        obtain ⟨t, ht, rfl⟩ := hi
        omega
  refine ⟨hwin, extractRaw?_isSome_of_readIndices inputData byteCounter f ?_⟩
  intro i hi
  exact (hwin i hi).2.2

/-- C4, witness: a validated 16-bit formula at first bit 0 in a 2-byte PID
record starting at cursor 2 of a 4-byte payload. -/
theorem claim_C4_witness :
    (∀ i ∈ readIndices 2 (⟨10, 0, 16, 1/4, 0⟩ : CANSignalFormat),
        2 ≤ i ∧ i < 2 + 2 ∧ i < 4) ∧
    (extractRaw? [0x41, 0x0C, 0x1A, 0xF8] 2 ⟨10, 0, 16, 1/4, 0⟩).isSome :=
  claim_C4 dictRPM 0x0C ⟨2, [⟨10, 0, 16, 1/4, 0⟩]⟩ ⟨10, 0, 16, 1/4, 0⟩
    [0x41, 0x0C, 0x1A, 0xF8] 2 (by rfl) (by rfl)
    (by norm_num)


theorem validAux_le (dict : OBDDecoderDictionary) :
    ∀ (pids inputData : List Nat) (idx : Nat),
      isPIDResponseValidAux dict pids inputData idx = true → idx ≤ inputData.length := by
  intro pids inputData idx h
  cases pids with
  | nil =>
    simp only [isPIDResponseValidAux, decide_eq_true_eq] at h
    omega
  | cons p rest =>
    rw [isPIDResponseValidAux] at h
    by_cases hg : idx ≥ inputData.length ∨ inputData.getD idx 0 ≠ p
    · rw [if_pos hg] at h
      exact absurd h (by simp)
    · push_neg at hg
      omega

theorem walk_of_validAux (dict : OBDDecoderDictionary) (inputData : List Nat) :
    ∀ (pids : List Nat) (idx : Nat) (m : List (Nat × ℚ)),
      isPIDResponseValidAux dict pids inputData idx = true →
      (decodePIDsLoop dict inputData idx m).aborted = false ∧
      (decodePIDsLoop dict inputData idx m).shortSkip = false ∧
      (decodePIDsLoop dict inputData idx m).final = inputData.length ∧
      (decodePIDsLoop dict inputData idx m).reads = validatorReads dict pids idx := by
  intro pids
  induction pids with
  | nil =>
    intro idx m h
    simp only [isPIDResponseValidAux, decide_eq_true_eq] at h
    rw [decodePIDsLoop, dif_neg (by omega)]
    simp [validatorReads, h]
  | cons p rest ih =>
    intro idx m h
    rw [isPIDResponseValidAux] at h
    by_cases hg : idx ≥ inputData.length ∨ inputData.getD idx 0 ≠ p
    · rw [if_pos hg] at h
      exact absurd h (by simp)
    · rw [if_neg hg] at h
      push_neg at hg
      obtain ⟨hlt, hpid⟩ := hg
      cases hlook : List.lookup p dict with
      | none =>
        rw [hlook] at h
        exact absurd h (by simp)
      | some entry =>
        rw [hlook] at h
        dsimp only at h
        have hnext := validAux_le dict rest inputData _ h
        have hcur : idx + 1 + entry.mSizeInBytes ≤ inputData.length := by omega
        have heq : idx + 1 + entry.mSizeInBytes = idx + entry.mSizeInBytes + 1 := by omega
        rw [decodePIDsLoop, dif_pos hlt, hpid]
        dsimp only
        rw [hlook]
        dsimp only
        rw [heq]
        have ihh := ih (idx + entry.mSizeInBytes + 1)
          (if idx + 1 + entry.mSizeInBytes ≤ inputData.length then
            applyFormulas dict p inputData (idx + 1) entry.mSignals m else m) h
        rw [heq] at ihh
        refine ⟨ihh.1, ?_, ihh.2.2.1, ?_⟩
        · rw [ihh.2.1]
          simp [hnext, hcur, heq]
        · rw [ihh.2.2.2]
          simp [validatorReads, hlook]

/-- C10: whenever `isPIDResponseValid` accepts `(pids, payload)`, the walk of
`decodeEmissionPIDs` (from cursor 1, any initial signal map) reads PID bytes
at exactly the positions the validator checked (`validatorReads`), never
takes the dictionary-miss abort branch, passes the per-record length check at
every PID, and terminates with its cursor exactly at the payload length. -/
theorem claim_C10 (dict : OBDDecoderDictionary) (pids inputData : List Nat)
    (m : List (Nat × ℚ)) (hvalid : isPIDResponseValid dict pids inputData = true) :
    (decodePIDsLoop dict inputData 1 m).aborted = false ∧
    (decodePIDsLoop dict inputData 1 m).shortSkip = false ∧
    (decodePIDsLoop dict inputData 1 m).final = inputData.length ∧
    (decodePIDsLoop dict inputData 1 m).reads = validatorReads dict pids 1 :=
  walk_of_validAux dict inputData pids 1 m hvalid

/-- C10, witness: the expected list `[0x05]` with payload `41 05 7B` under
`dictPid5` passes validation; the walk consumes the 3 bytes exactly and reads
the PID at position 1. -/
theorem claim_C10_witness :
    (decodePIDsLoop dictPid5 [0x41, 5, 0x7B] 1 []).aborted = false ∧
    (decodePIDsLoop dictPid5 [0x41, 5, 0x7B] 1 []).shortSkip = false ∧
    (decodePIDsLoop dictPid5 [0x41, 5, 0x7B] 1 []).final = 3 ∧
    (decodePIDsLoop dictPid5 [0x41, 5, 0x7B] 1 []).reads = validatorReads dictPid5 [5] 1 :=
  claim_C10 dictPid5 [5] [0x41, 5, 0x7B] [] (by rfl)


theorem getPID_ne_invalid (table : Nat → Nat → Bool) (sid idx : Nat)
    (h : getPID table sid idx ≠ INVALID_PID) : getPID table sid idx = idx := by
  unfold getPID at h ⊢
  split at h
  · rename_i hc
    rw [if_pos hc]
  · exact absurd rfl h

/-- What one bit of a bitmap byte can emit: the advertised index itself, and
never a range selector. -/
theorem supportedPIDsFromBits_emit (table : Nat → Nat → Bool) (sid b i bpc j x : Nat)
    (hfx : (if b &&& (1 <<< j) ≠ 0 then
        let decodedID := getPID table sid ((i - bpc) * BYTE_SIZE - j)
        if decodedID ≠ INVALID_PID ∧ decodedID ∉ supportedPIDRange then some decodedID
        else none
      else none) = some x) :
    x = (i - bpc) * BYTE_SIZE - j ∧ x ∉ supportedPIDRange := by
  split at hfx
  · dsimp only at hfx
    split at hfx
    · rename_i hcond
      rw [Option.some.injEq] at hfx
      subst hfx
      obtain ⟨hne, hnr⟩ := hcond
      exact ⟨getPID_ne_invalid table sid _ hne, hnr⟩
    · exact absurd hfx (by simp)
  · exact absurd hfx (by simp)

theorem mem_supportedPIDsFromBits (table : Nat → Nat → Bool) (sid b i bpc x : Nat)
    (hx : x ∈ supportedPIDsFromBits table sid b i bpc) :
    ∃ j, j < 8 ∧ x = (i - bpc) * BYTE_SIZE - j ∧ x ∉ supportedPIDRange := by
  simp only [supportedPIDsFromBits, List.mem_filterMap, List.mem_range, BYTE_SIZE] at hx
  obtain ⟨j, hj, hfx⟩ := hx
  exact ⟨j, hj, supportedPIDsFromBits_emit table sid b i bpc j x hfx⟩

theorem mem_loop_lower (table : Nat → Nat → Bool) (sid : Nat) :
    ∀ (l : List Nat) (i bpc : Nat), bpc < i →
      ∀ x ∈ decodeSupportedPIDsLoop table sid l i bpc, 8 * (i - bpc) - 7 ≤ x := by
  intro l
  induction l with
  | nil =>
    intro i bpc hbi x hx
    simp [decodeSupportedPIDsLoop] at hx
  | cons b rest ih =>
    intro i bpc hbi x hx
    rw [decodeSupportedPIDsLoop] at hx
    split at hx
    · have := ih (i + 1) (bpc + 1) (by omega) x hx
      omega
    · rcases List.mem_append.mp hx with hmem | hmem
      · obtain ⟨j, hj, hxe, _⟩ := mem_supportedPIDsFromBits table sid b i bpc x hmem
        simp only [BYTE_SIZE] at hxe
        omega
      · have := ih (i + 1) bpc (by omega) x hmem
        omega

theorem mem_loop_not_selector (table : Nat → Nat → Bool) (sid : Nat) :
    ∀ (l : List Nat) (i bpc : Nat),
      ∀ x ∈ decodeSupportedPIDsLoop table sid l i bpc, x ∉ supportedPIDRange := by
  intro l
  induction l with
  | nil =>
    intro i bpc x hx
    simp [decodeSupportedPIDsLoop] at hx
  | cons b rest ih =>
    intro i bpc x hx
    rw [decodeSupportedPIDsLoop] at hx
    split at hx
    · exact ih (i + 1) (bpc + 1) x hx
    · rcases List.mem_append.mp hx with hmem | hmem
      · exact (mem_supportedPIDsFromBits table sid b i bpc x hmem).choose_spec.2.2
      · exact ih (i + 1) bpc x hmem

theorem nodup_supportedPIDsFromBits (table : Nat → Nat → Bool) (sid b i bpc : Nat) :
    (supportedPIDsFromBits table sid b i bpc).Nodup := by
  unfold supportedPIDsFromBits
  refine List.Nodup.filterMap ?_ (List.nodup_range _)
  intro j j2 x hxj hxj2
  rw [Option.mem_def] at hxj hxj2
  obtain ⟨he1, hnr⟩ := supportedPIDsFromBits_emit table sid b i bpc j x hxj
  obtain ⟨he2, _⟩ := supportedPIDsFromBits_emit table sid b i bpc j2 x hxj2
  have hx0 : x ≠ 0 := by
    intro h0
    exact hnr (by simp [h0, supportedPIDRange])
  simp only [BYTE_SIZE] at he1 he2
  omega

theorem nodup_loop (table : Nat → Nat → Bool) (sid : Nat) :
    ∀ (l : List Nat) (i bpc : Nat), bpc < i →
      (decodeSupportedPIDsLoop table sid l i bpc).Nodup := by
  intro l
  induction l with
  | nil =>
    intro i bpc _
    simp [decodeSupportedPIDsLoop]
  | cons b rest ih =>
    intro i bpc hbi
    rw [decodeSupportedPIDsLoop]
    split
    · exact ih (i + 1) (bpc + 1) (by omega)
    · rw [List.nodup_append]
      refine ⟨nodup_supportedPIDsFromBits table sid b i bpc, ih (i + 1) bpc (by omega), ?_⟩
      intro x hx1 hx2
      obtain ⟨j, hj, hxe, _⟩ := mem_supportedPIDsFromBits table sid b i bpc x hx1
      have hlow := mem_loop_lower table sid rest (i + 1) bpc (by omega) x hx2
      simp only [BYTE_SIZE] at hxe
      omega

/-- C9: with an initially empty output list, `decodeSupportedPIDs` always
produces a list that is sorted ascending, duplicate-free and free of
range-selector PIDs, and the call reports success exactly when that list is
non-empty. -/
theorem claim_C9 (table : Nat → Nat → Bool) (sid : Nat) (inputData : List Nat) :
    ((decodeSupportedPIDs table sid inputData []).2.Sorted (· ≤ ·)) ∧
    ((decodeSupportedPIDs table sid inputData []).2.Nodup) ∧
    (∀ x ∈ (decodeSupportedPIDs table sid inputData []).2, x ∉ supportedPIDRange) ∧
    ((decodeSupportedPIDs table sid inputData []).1 = true ↔
      (decodeSupportedPIDs table sid inputData []).2 ≠ []) := by
  unfold decodeSupportedPIDs
  by_cases henv : inputData.length < 6 ∨ POSITIVE_ECU_RESPONSE_BASE + sid ≠ inputData.getD 0 0
  · rw [if_pos henv]
    exact ⟨List.sorted_nil, List.nodup_nil, by simp, by simp⟩
  · rw [if_neg henv]
    dsimp only
    have hperm := List.perm_insertionSort (α := Nat) (fun x1 x2 => x1 ≤ x2)
      ([] ++ decodeSupportedPIDsLoop table sid (inputData.drop 1) 1 0)
    simp only [List.nil_append] at hperm
    refine ⟨List.sorted_insertionSort _ _, ?_, ?_, ?_⟩
    · exact hperm.nodup_iff.mpr (nodup_loop table sid _ 1 0 (by omega))
    · intro x hx
      refine mem_loop_not_selector table sid (inputData.drop 1) 1 0 x ?_
      exact hperm.mem_iff.mp (by simpa using hx)
    · simp [List.isEmpty_iff]

/-- C9, witness: the single-range scenario payload `41 00 80 18 00 13` under
an all-supporting table yields a non-empty list, and its head PID 1 is not a
range selector. -/
theorem claim_C9_witness :
    (decodeSupportedPIDs (fun _ _ => true) 1 [0x41, 0, 0x80, 0x18, 0, 0x13] []).2 ≠ [] ∧
    (1 : Nat) ∉ supportedPIDRange :=
  ⟨(claim_C9 (fun _ _ => true) 1 [0x41, 0, 0x80, 0x18, 0, 0x13]).2.2.2.mp (by decide),
   (claim_C9 (fun _ _ => true) 1 [0x41, 0, 0x80, 0x18, 0, 0x13]).2.2.1 1 (by decide)⟩

/-- C8, witness: each envelope rejection at a concrete input. -/
theorem claim_C8_witness :
    (decodeSupportedPIDs (fun _ _ => true) 1 [0x42, 0, 0, 0, 0, 0] []).1 = false ∧
    (decodeEmissionPIDs (some dictPid5) 1 [5] [0x41, 5] ⟨0, []⟩).1 = false ∧
    (decodeDTCs 3 [0x44, 0] freshDTCInfo).1 = false ∧
    (decodeVIN [0x48, 2, 1, 65] []).1 = false :=
  ⟨claim_C8.1 (fun _ _ => true) 1 [0x42, 0, 0, 0, 0, 0] [] (by norm_num),
   claim_C8.2.1 (some dictPid5) 1 [5] [0x41, 5] ⟨0, []⟩ (by norm_num),
   claim_C8.2.2.1 3 [0x44, 0] freshDTCInfo (by norm_num),
   claim_C8.2.2.2 [0x48, 2, 1, 65] [] (by norm_num [vinRequestSID])⟩

end OBD
